import Mathlib

/-!
Shallow embedding of the scraper service (`scraperService.js`) of the
netflixdataapi repository, together with proofs about its list extractor,
match engine, and enrichment orchestrator.

Conventions of the embedding:
* JavaScript strings are Lean `String`s (operated on as `List Char`);
  JavaScript numbers used as ranks/ids/years are `Int`, scores and
  popularity/rating values are `ℚ` (the score arithmetic of the source uses
  only +, *, min and comparisons on small literals, where float and rational
  arithmetic agree).
* Regular-expression replaces of the source are implemented as explicit
  left-to-right scans with the same leftmost-match, ordered-alternation and
  greedy/lazy quantifier behaviour on the character lists.
* The `axios` search call of `searchTMDB` is an injected oracle
  `SearchFn`; a rejected promise is `Except.error ()`, a response with a
  result list is `Except.ok results`.  The DOM-scraping stages of
  `parseTableData` (methods 1-3, which walk the cheerio document) are
  abstracted as the arbitrary contents of the accumulated `results` array
  reaching line 502, and the document's title anchors as the list of their
  trimmed texts; the final sort / rank-dedup / gap-fill code (lines 502-528
  and 631-666) is embedded verbatim.
* `new Date().getFullYear()` is the parameter `currentYear`; a candidate
  carries the year extracted from its release date (`none` for an
  unparseable date, whose `NaN` year fails every numeric comparison).
* Pacing delays (`wait`) and console logging have no observable effect on
  the returned data and are dropped.
-/

/-- Whitespace class of the source's regular expressions (JS `\s`, ASCII part). -/
def isSpaceChar (c : Char) : Bool :=
  c = ' ' || c = '\t' || c = '\n' || c = '\r' || c = '\x0b' || c = '\x0c'

/-- Embedding of `title.replace(/^\d+\.\s*/, '')`: strip a leading digit run
followed by a dot and optional whitespace; if the digit run is not followed by
a dot the pattern fails and the string is unchanged. -/
def stripLeadNumDot (l : List Char) : List Char :=
  let ds := l.takeWhile (·.isDigit)
  if ds.isEmpty then l
  else
    match l.dropWhile (·.isDigit) with
    | '.' :: rest => rest.dropWhile (fun c => isSpaceChar c)
    | _ => l

/-- Scan for the first closing delimiter, as the lazy `.*?` of the source
does: `.` cannot cross a line terminator, so the scan fails if a newline
or carriage return appears before the delimiter. -/
def findCloseDelim (closing : Char) : List Char → Option (List Char)
  | [] => none
  | c :: rest =>
    if c = closing then some rest
    else if c = '\n' ∨ c = '\r' then none
    else findCloseDelim closing rest

/-- Match attempt for `\s*<opening>.*?<closing>\s*` at the head of the list
(used for the parenthesis and bracket removals of `cleanTitleForSearch`).
Returns the remainder after the match when it succeeds. -/
def tryDelimited (opening closing : Char) (l : List Char) : Option (List Char) :=
  match l.dropWhile (fun c => isSpaceChar c) with
  | c :: inner =>
    if c = opening then (findCloseDelim closing inner).map (fun r => r.dropWhile (fun c => isSpaceChar c))
    else none
  | [] => none

/-- Case-insensitive literal prefix match; returns the remainder on success. -/
def prefixCI : List Char → List Char → Option (List Char)
  | [], l => some l
  | _ :: _, [] => none
  | p :: ps, c :: cs => if p.toLower = c.toLower then prefixCI ps cs else none

/-- Match attempt for `<word>\s+\d+` case-insensitively at the head of the
list (the `season\s+\d+` / `series\s+\d+` removals). -/
def tryWordNum (word : List Char) (l : List Char) : Option (List Char) :=
  match prefixCI word l with
  | none => none
  | some rest =>
    if (rest.takeWhile (fun c => isSpaceChar c)).isEmpty then none
    else
      let rest2 := rest.dropWhile (fun c => isSpaceChar c)
      let ds := rest2.takeWhile (·.isDigit)
      if ds.isEmpty then none else some (rest2.drop ds.length)

/-- Global-replace-with-empty scan: at each position try the pattern; on a
match continue after it, otherwise emit the character and advance one
position (the leftmost-match semantics of `String.prototype.replace` with a
`g` flag).  Every successful match of the patterns used here consumes at
least one character, so `fuel = length` steps always complete the scan. -/
def replaceScanGo (tryAt : List Char → Option (List Char)) : Nat → List Char → List Char
  | _, [] => []
  | 0, l => l
  | fuel + 1, c :: rest =>
    match tryAt (c :: rest) with
    | some after => replaceScanGo tryAt fuel after
    | none => c :: replaceScanGo tryAt fuel rest

/-- Run a global replace-with-empty over the whole list. -/
def replaceScan (tryAt : List Char → Option (List Char)) (l : List Char) : List Char :=
  replaceScanGo tryAt l.length l

/-- Embedding of `.replace(/\s+/g, ' ')`: every maximal whitespace run is
replaced by a single space.  The flag records whether the previous input
character was part of a run already replaced. -/
def collapseGo : Bool → List Char → List Char
  | _, [] => []
  | true, c :: rest =>
    if isSpaceChar c then collapseGo true rest else c :: collapseGo false rest
  | false, c :: rest =>
    if isSpaceChar c then ' ' :: collapseGo true rest else c :: collapseGo false rest

/-- Whitespace-run collapsing, entry point. -/
def collapseSpaces (l : List Char) : List Char := collapseGo false l

/-- Embedding of `String.prototype.trim`. -/
def trimChars (l : List Char) : List Char :=
  ((l.dropWhile (fun c => isSpaceChar c)).reverse.dropWhile (fun c => isSpaceChar c)).reverse

/-- Embedding of `cleanTitleForSearch` (lines 236-245): strip a leading
number-and-dot prefix, remove parenthesised and bracketed content, remove
`season <n>` and `series <n>` case-insensitively, collapse whitespace, trim. -/
def cleanTitleForSearch (title : String) : String :=
  let l := title.toList
  let l := stripLeadNumDot l
  let l := replaceScan (tryDelimited '(' ')') l
  let l := replaceScan (tryDelimited '[' ']') l
  let l := replaceScan (tryWordNum "season".toList) l
  let l := replaceScan (tryWordNum "series".toList) l
  (trimChars (collapseSpaces l)).asString

/-- Ordered alternation `(ph|philippines|filipino|pinoy|tagalog|tl)` of the
first replace of `removeCountryIndicators`; JS alternation is ordered, so
`ph` shadows `philippines` wherever both match. -/
def countryTokens : List (List Char) :=
  ["ph".toList, "philippines".toList, "filipino".toList, "pinoy".toList,
   "tagalog".toList, "tl".toList]

/-- Ordered alternation `(ph|philippines|filipino|pinoy)` of the second
(parenthesised) replace of `removeCountryIndicators`. -/
def countryTokensParen : List (List Char) :=
  ["ph".toList, "philippines".toList, "filipino".toList, "pinoy".toList]

/-- Try the alternatives in order at the head of the list. -/
def matchAnyTokenCI (toks : List (List Char)) (l : List Char) : Option (List Char) :=
  match toks with
  | [] => none
  | t :: ts =>
    match prefixCI t l with
    | some r => some r
    | none => matchAnyTokenCI ts l

/-- Match attempt for `\s*(ph|philippines|filipino|pinoy|tagalog|tl)\s*` at
the head of the list. -/
def tryCountryToken (l : List Char) : Option (List Char) :=
  match matchAnyTokenCI countryTokens (l.dropWhile (fun c => isSpaceChar c)) with
  | some r => some (r.dropWhile (fun c => isSpaceChar c))
  | none => none

/-- Lazy scan inside a parenthesis for the first country token followed
(after further lazy `.*?`) by a closing parenthesis; `.` cannot cross a line
terminator.  A token occurrence with no reachable `)` cannot be rescued by a
longer alternative, since the span between the alternatives' ends contains
only letters. -/
def findTokenInside (toks : List (List Char)) : List Char → Option (List Char)
  | [] => none
  | c :: rest =>
    match matchAnyTokenCI toks (c :: rest) with
    | some r =>
      match findCloseDelim ')' r with
      | some after => some after
      | none => if c = '\n' ∨ c = '\r' then none else findTokenInside toks rest
    | none => if c = '\n' ∨ c = '\r' then none else findTokenInside toks rest

/-- Match attempt for `\s*\(.*?(ph|philippines|filipino|pinoy).*?\)\s*` at
the head of the list. -/
def tryCountryParen (l : List Char) : Option (List Char) :=
  match l.dropWhile (fun c => isSpaceChar c) with
  | c :: inner =>
    if c = '(' then
      match findTokenInside countryTokensParen inner with
      | some after => some (after.dropWhile (fun c => isSpaceChar c))
      | none => none
    else none
  | [] => none

/-- Embedding of `removeCountryIndicators` (lines 228-234). -/
def removeCountryIndicators (title : String) : String :=
  let l := title.toList
  let l := replaceScan tryCountryToken l
  let l := replaceScan tryCountryParen l
  (trimChars (collapseSpaces l)).asString

/-- Embedding of `levenshteinDistance` (lines 199-225): the dynamic-programming
matrix of the source computes exactly the unit-cost insert/replace/delete
edit distance, expressed here by its defining recurrence
(`matrix[i][j] = min(diag+1, left+1, up+1)`, diagonal reused on equal chars). -/
def levenshteinDistance : List Char → List Char → Nat
  | [], ys => ys.length
  | x :: xs, [] => (x :: xs).length
  | x :: xs, y :: ys =>
    if x = y then levenshteinDistance xs ys
    else 1 + min (levenshteinDistance xs ys)
          (min (levenshteinDistance (x :: xs) ys) (levenshteinDistance xs (y :: ys)))
termination_by a b => a.length + b.length

/-- Embedding of `calculateStringSimilarity` (lines 188-196). -/
def calculateStringSimilarity (str1 str2 : String) : ℚ :=
  let l1 := str1.toList
  let l2 := str2.toList
  let longer := if l2.length < l1.length then l1 else l2
  let shorter := if l2.length < l1.length then l2 else l1
  if longer.length = 0 then 1
  else ((longer.length : ℚ) - (levenshteinDistance longer shorter : ℚ)) / (longer.length : ℚ)

/-- JavaScript `a || b` on a possibly-absent string field: an absent field and
the empty string are both falsy. -/
def jsOr (o : Option String) (d : String) : String :=
  match o with
  | some s => if s = "" then d else s
  | none => d

/-- JavaScript `toLowerCase` (ASCII range, which is all the scoring needs). -/
def jsToLower (s : String) : String := (s.toList.map Char.toLower).asString

/-- Character class kept by `.replace(/[^\w\s]/g, '')`. -/
def isWordOrSpace (c : Char) : Bool := c.isAlphanum || c = '_' || isSpaceChar c

/-- Embedding of `.replace(/[^\w\s]/g, '')`: drop punctuation. -/
def stripNonWord (s : String) : String := ((s.toList).filter isWordOrSpace).asString

/-- Lowercase and strip punctuation, the title cleaning used by the scorer. -/
def cleanedTitle (s : String) : String := stripNonWord (jsToLower s)

/-- JavaScript `String.prototype.includes`: `hasSubstr pat l` holds when
`pat` occurs contiguously in `l` (every string contains the empty string). -/
def hasSubstr (pat : List Char) : List Char → Bool
  | [] => pat.isEmpty
  | c :: rest => pat.isPrefixOf (c :: rest) || hasSubstr pat rest

/-- A TMDB search result as consumed by `findBestMatch`: `releaseYear` is the
year of `release_date || first_air_date || '1900'` (`none` when the date is
unparseable, i.e. a `NaN` year). -/
structure Candidate where
  id : Int
  title : Option String
  name : Option String
  media_type : Option String
  releaseYear : Option Int
  origin_country : List String
  popularity : ℚ
  vote_average : ℚ
deriving DecidableEq

/-- JavaScript `result.title || result.name || ''`. -/
def displayTitle (c : Candidate) : String := jsOr c.title (jsOr c.name "")

/-- Title-agreement component of the scoring system (lines 133-142): exact
match of the cleaned titles, then substring containment in either direction,
then scaled edit-distance similarity. -/
def titleScore (originalTitle : String) (c : Candidate) : ℚ :=
  if cleanedTitle (displayTitle c) = cleanedTitle originalTitle then 100
  else if hasSubstr (cleanedTitle originalTitle).toList (cleanedTitle (displayTitle c)).toList
      || hasSubstr (cleanedTitle (displayTitle c)).toList (cleanedTitle originalTitle).toList then 80
  else calculateStringSimilarity (cleanedTitle originalTitle) (cleanedTitle (displayTitle c)) * 60

/-- Release-date component of the scoring system (lines 144-156); a `NaN`
year fails every comparison, hence scores 0. -/
def dateScore (currentYear : Int) (countryCode : String) (c : Candidate) : ℚ :=
  match c.releaseYear with
  | none => 0
  | some y =>
    if countryCode = "PH" then
      if currentYear - 2 ≤ y then 30
      else if currentYear - 5 ≤ y then 20
      else if 2010 ≤ y then 10
      else 0
    else if 2000 ≤ y ∧ y ≤ currentYear - 1 then 20 else 0

/-- Regional-origin component of the scoring system (lines 158-161). -/
def originScore (countryCode : String) (c : Candidate) : ℚ :=
  if countryCode ∈ c.origin_country then 25 else 0

/-- Popularity tiebreaker, `Math.min(popularity * 0.1, 10)` (line 164). -/
def popScore (c : Candidate) : ℚ := min (c.popularity * (1 / 10)) 10

/-- Rating tiebreaker, `Math.min(vote_average * 2, 20)` (line 165). -/
def voteScore (c : Candidate) : ℚ := min (c.vote_average * 2) 20

/-- Stale-content penalty (lines 167-170); a `NaN` year fails the comparison,
hence no penalty. -/
def oldPenalty (c : Candidate) : ℚ :=
  match c.releaseYear with
  | none => 0
  | some y => if y < 1990 ∧ c.vote_average < 7 then 20 else 0

/-- Scoring system of `findBestMatch` (lines 127-173), the sum of the
`score +=` blocks. -/
def scoreCandidate (currentYear : Int) (originalTitle countryCode : String) (c : Candidate) : ℚ :=
  titleScore originalTitle c + dateScore currentYear countryCode c
    + originScore countryCode c + popScore c + voteScore c - oldPenalty c

/-- Media-type filter of `findBestMatch` (lines 117-124): an absent
`media_type` counts as the requested type; an empty filter result falls back
to the unfiltered list. -/
def filterByMediaType (results : List Candidate) (mediaType : String) : List Candidate :=
  if mediaType = "multi" then results
  else
    match results.filter (fun r => decide (jsOr r.media_type mediaType = mediaType)) with
    | [] => results
    | f :: fs => f :: fs

/-- First element of the stable descending sort by score
(`scoredResults.sort((a, b) => b.similarity_score - a.similarity_score)` then
`scoredResults[0]`): the earliest element attaining the maximal score, i.e. a
left fold replacing the best only on a strictly greater score. -/
def pickTopScored : List (Candidate × ℚ) → Option Candidate
  | [] => none
  | s :: ss => some ((ss.foldl (fun best c => if best.2 < c.2 then c else best) s).1)

/-- Embedding of `findBestMatch` (lines 114-185). -/
def findBestMatch (currentYear : Int) (results : List Candidate)
    (originalTitle countryCode mediaType : String) : Option Candidate :=
  match results with
  | [] => none
  | _ :: _ =>
    pickTopScored ((filterByMediaType results mediaType).map
      (fun r => (r, scoreCandidate currentYear originalTitle countryCode r)))

/-- Injected search collaborator: media type, query, optional region; a
rejected call is `Except.error ()`, otherwise the (possibly empty) result
list is returned. -/
abbrev SearchFn := String → String → Option String → Except Unit (List Candidate)

/-- The four query strategies of `searchTMDB` (lines 47-56), in source order. -/
def searchStrategies (title countryCode : String) : List (String × Option String) :=
  [ (cleanTitleForSearch title, some countryCode),
    (cleanTitleForSearch title, none),
    (removeCountryIndicators (cleanTitleForSearch title), none),
    (String.intercalate " " (((cleanTitleForSearch title).splitOn " ").take 3), none) ]

/-- The value returned by a successful `searchTMDB` (lines 88-94). -/
structure TMDBResult where
  tmdb_id : Int
  tmdb_title : String
  tmdb_year : Option Int
  tmdb_media_type : String
  search_strategy_used : Nat
deriving DecidableEq

/-- Build the returned record from the best match of strategy number
`strategyNum` (1-based). -/
def mkTMDBResult (b : Candidate) (mediaType : String) (strategyNum : Nat) : TMDBResult :=
  { tmdb_id := b.id
    tmdb_title := jsOr b.title (jsOr b.name "")
    tmdb_year := b.releaseYear
    tmdb_media_type := jsOr b.media_type mediaType
    search_strategy_used := strategyNum }

/-- Strategy loop of `searchTMDB` (lines 58-103): issue the strategies in
order, treat a rejected call like an empty result list and continue, return
on the first strategy whose non-empty results produce a best match.  The
second component records the 1-based numbers of the strategies whose search
calls were actually issued. -/
def runStrategies (currentYear : Int) (search : SearchFn)
    (title mediaType countryCode : String) :
    Nat → List (String × Option String) → Option TMDBResult × List Nat
  | _, [] => (none, [])
  | i, (q, reg) :: rest =>
    match search mediaType q reg with
    | Except.error _ =>
      let next := runStrategies currentYear search title mediaType countryCode (i + 1) rest
      (next.1, (i + 1) :: next.2)
    | Except.ok [] =>
      let next := runStrategies currentYear search title mediaType countryCode (i + 1) rest
      (next.1, (i + 1) :: next.2)
    | Except.ok (r :: rs) =>
      match findBestMatch currentYear (r :: rs) title countryCode mediaType with
      | some b => (some (mkTMDBResult b mediaType (i + 1)), [i + 1])
      | none =>
        let next := runStrategies currentYear search title mediaType countryCode (i + 1) rest
        (next.1, (i + 1) :: next.2)

/-- Embedding of `searchTMDB` (lines 36-111), for a configured API key; the
result is paired with the trace of issued strategy numbers. -/
def searchTMDB (currentYear : Int) (search : SearchFn)
    (title mediaType countryCode : String) : Option TMDBResult × List Nat :=
  runStrategies currentYear search title mediaType countryCode 0
    (searchStrategies title countryCode)

/-- An oracle in which every rejected call is replaced by an empty result
list (what "caught and treated as zero results" means for the cascade). -/
def errorsAsEmpty (search : SearchFn) : SearchFn :=
  fun mt q reg =>
    match search mt q reg with
    | Except.error _ => Except.ok []
    | Except.ok l => Except.ok l

/-- A ranked entry as produced by the list extractor (lines 390-397). -/
structure Entry where
  rank : Int
  title : String
  category : String
  poster : String
  country : String
  platform : String
deriving DecidableEq

/-- Comparator `(a, b) => a.rank - b.rank` of the final sort. -/
def rankLE (a b : Entry) : Prop := a.rank ≤ b.rank

instance : DecidableRel rankLE := fun a b => inferInstanceAs (Decidable (a.rank ≤ b.rank))

instance : IsTotal Entry rankLE := ⟨fun a b => Int.le_total a.rank b.rank⟩

instance : IsTrans Entry rankLE := ⟨fun _ _ _ hab hbc => le_trans hab hbc⟩

/-- Final dedup pass of `parseTableData` (lines 503-517): keep the first
entry seen for each rank, discarding ranks outside 1-10. -/
def dedupRanksGo : List Int → List Entry → List Entry
  | _, [] => []
  | seen, e :: rest =>
    if e.rank ∉ seen ∧ 1 ≤ e.rank ∧ e.rank ≤ 10 then
      e :: dedupRanksGo (e.rank :: seen) rest
    else dedupRanksGo seen rest

/-- Sort by rank (a stable sort, as `Array.prototype.sort`) then dedup:
lines 502-517 of `parseTableData`. -/
def finalizePass (results : List Entry) : List Entry :=
  dedupRanksGo [] (List.insertionSort rankLE results)

/-- The ranks 1..10 probed by the gap-fill loop. -/
def rankCandidates : List Int := [1, 2, 3, 4, 5, 6, 7, 8, 9, 10]

/-- Entry pushed by `fillMissingRanks` (lines 647-654). -/
def mkFillEntry (r : Int) (title category : String) : Entry :=
  { rank := r, title := title, category := category, poster := "",
    country := "Philippines", platform := "Netflix" }

/-- Embedding of `fillMissingRanks` (lines 631-666): for each non-empty
anchor text assign the lowest still-unfilled rank in 1-10, appending at the
end of the current results; stop as soon as 10 entries are reached. -/
def fillMissingRanks : List String → List Entry → List Int → String → List Entry
  | [], cur, _, _ => cur
  | t :: rest, cur, seen, category =>
    if t = "" then fillMissingRanks rest cur seen category
    else
      match rankCandidates.find? (fun r => decide (r ∉ seen)) with
      | some r =>
        if 10 ≤ (cur ++ [mkFillEntry r t category]).length then cur ++ [mkFillEntry r t category]
        else fillMissingRanks rest (cur ++ [mkFillEntry r t category]) (r :: seen) category
      | none => if 10 ≤ cur.length then cur else fillMissingRanks rest cur seen category

/-- Embedding of the reconciliation part of `parseTableData` (lines 502-528):
`results` is the accumulated output of the DOM-scraping stages (methods 1-3,
abstracted as an arbitrary list since they depend on the HTML),
`allTitleLinks` the trimmed texts of all `/title/` anchors of the document
(the input of the gap-fill pass). -/
def parseTableData (results : List Entry) (allTitleLinks : List String)
    (sectionType : String) : List Entry :=
  let category := if sectionType = "TV Shows" then "TV Show" else "Movie"
  let finalResults := finalizePass results
  if finalResults.length < 10 then
    fillMissingRanks allTitleLinks finalResults (finalResults.map (·.rank)) category
  else finalResults

/-- Embedding of `parseNetflixTop10` (lines 290-310): concatenate the TV
section (for "tv" or "both") and the Movies section (for "movies" or
"both"). -/
def parseNetflixTop10 (tvResults : List Entry) (tvLinks : List String)
    (movieResults : List Entry) (movieLinks : List String)
    (requestType : String) : List Entry :=
  (if requestType = "tv" ∨ requestType = "both" then parseTableData tvResults tvLinks "TV Shows" else [])
    ++ (if requestType = "movies" ∨ requestType = "both" then parseTableData movieResults movieLinks "Movies" else [])

/-- An extracted item as enriched by `enrichWithTMDB`; the TMDB fields spread
into the item are bundled in `tmdb`. -/
structure Item where
  rank : Int
  title : String
  category : String
  poster : String
  country : String
  platform : String
  tmdb : Option TMDBResult
deriving DecidableEq

/-- Media type derived from the item's category (line 260). -/
def itemMediaType (item : Item) : String := if item.category = "Movie" then "movie" else "tv"

/-- Per-item step of `enrichWithTMDB` (lines 256-282): search with the
category-derived type, retry with `multi` when that found nothing, keep the
original fields when both find nothing. -/
def enrichItem (currentYear : Int) (search : SearchFn) (countryCode : String)
    (item : Item) : Item :=
  let tmdbData := (searchTMDB currentYear search item.title (itemMediaType item) countryCode).1
  let finalData :=
    match tmdbData with
    | some d => some d
    | none => (searchTMDB currentYear search item.title "multi" countryCode).1
  match finalData with
  | some d => { item with tmdb := some d }
  | none => item

/-- Sequential enrichment loop (the `for` of lines 256-282). -/
def enrichLoop (currentYear : Int) (search : SearchFn) (countryCode : String) :
    List Item → List Item
  | [] => []
  | item :: rest =>
    enrichItem currentYear search countryCode item
      :: enrichLoop currentYear search countryCode rest

/-- Embedding of `enrichWithTMDB` (lines 247-288); with no API key the items
are returned unchanged. -/
def enrichWithTMDB (currentYear : Int) (search : SearchFn) (hasKey : Bool)
    (items : List Item) (countryCode : String) : List Item :=
  if hasKey then enrichLoop currentYear search countryCode items else items

/-- Concrete candidate whose cleaned display title equals the cleaned input
title `"my show"` exactly. -/
def exactCand : Candidate := ⟨1, some "My Show", none, none, some 2024, ["PH"], 0, 0⟩

/-- Concrete near-title candidate whose cleaned title strictly contains the
input title, with higher popularity and rating than `exactCand`. -/
def nearCand : Candidate := ⟨2, some "My Show 2", none, none, some 2024, ["PH"], 200, 10⟩

/-- Concrete near-title candidate whose cleaned title neither contains nor is
contained in the input title, with higher popularity and rating than
`exactCand`. -/
def farCand : Candidate := ⟨3, some "My Shoe", none, none, some 2024, ["PH"], 200, 10⟩

/-! ## Theorems -/

theorem levenshteinDistance_nil_right (xs : List Char) :
    levenshteinDistance xs [] = xs.length := by
  cases xs <;> simp [levenshteinDistance]

theorem levenshteinDistance_self (xs : List Char) : levenshteinDistance xs xs = 0 := by
  induction xs with
  | nil => simp [levenshteinDistance]
  | cons x xs ih => simp [levenshteinDistance, ih]

theorem levenshteinDistance_comm (a b : List Char) :
    levenshteinDistance a b = levenshteinDistance b a := by
  induction a, b using levenshteinDistance.induct with
  | case1 ys => simp [levenshteinDistance, levenshteinDistance_nil_right]
  | case2 x xs => simp [levenshteinDistance, levenshteinDistance_nil_right]
  | case3 ps c cs ih => simp [levenshteinDistance, ih]
  | case4 x xs y ys h ih1 ih2 ih3 =>
    rw [levenshteinDistance, levenshteinDistance]
    rw [if_neg h, if_neg (fun hc => h hc.symm)]
    rw [ih1, ih2, ih3]
    omega

theorem calculateStringSimilarity_self (a : String) : calculateStringSimilarity a a = 1 := by
  simp only [calculateStringSimilarity]
  rw [if_neg (lt_irrefl _)]
  rcases Nat.eq_zero_or_pos a.toList.length with h | h
  · rw [if_pos h]
  · rw [if_neg (by omega), levenshteinDistance_self]
    norm_num
    rw [div_self (by positivity)]

theorem calculateStringSimilarity_comm (a b : String) :
    calculateStringSimilarity a b = calculateStringSimilarity b a := by
  simp only [calculateStringSimilarity]
  rcases lt_trichotomy b.toList.length a.toList.length with h | h | h
  · rw [if_pos h, if_pos h, if_neg (show ¬ a.toList.length < b.toList.length by omega),
      if_neg (show ¬ a.toList.length < b.toList.length by omega)]
  · rw [if_neg (show ¬ b.toList.length < a.toList.length by omega),
      if_neg (show ¬ b.toList.length < a.toList.length by omega),
      if_neg (show ¬ a.toList.length < b.toList.length by omega),
      if_neg (show ¬ a.toList.length < b.toList.length by omega),
      levenshteinDistance_comm b.toList a.toList, h]
  · rw [if_neg (show ¬ b.toList.length < a.toList.length by omega),
      if_neg (show ¬ b.toList.length < a.toList.length by omega), if_pos h, if_pos h]

theorem calculateStringSimilarity_le_one (a b : String) :
    calculateStringSimilarity a b ≤ 1 := by
  simp only [calculateStringSimilarity]
  by_cases h : b.toList.length < a.toList.length
  · rw [if_pos h, if_pos h]
    rcases Nat.eq_zero_or_pos a.toList.length with h0 | h0
    · rw [if_pos h0]
    · rw [if_neg (by omega), div_le_one (by exact_mod_cast h0)]
      have hd : (0 : ℚ) ≤ (levenshteinDistance a.toList b.toList : ℚ) := by positivity
      linarith
  · rw [if_neg h, if_neg h]
    rcases Nat.eq_zero_or_pos b.toList.length with h0 | h0
    · rw [if_pos h0]
    · rw [if_neg (by omega), div_le_one (by exact_mod_cast h0)]
      have hd : (0 : ℚ) ≤ (levenshteinDistance b.toList a.toList : ℚ) := by positivity
      linarith

/-- Claim C4: `calculateStringSimilarity` is symmetric, equals 1 on equal
strings, equals 1 on two empty strings, and otherwise is
`(maxLength - editDistance) / maxLength` for the unit-cost Levenshtein
distance and the longer string's length. -/
theorem calculateStringSimilarity_spec :
    (∀ a b : String, calculateStringSimilarity a b = calculateStringSimilarity b a)
    ∧ (∀ a : String, calculateStringSimilarity a a = 1)
    ∧ calculateStringSimilarity "" "" = 1
    ∧ ∀ a b : String, 0 < max a.toList.length b.toList.length →
        calculateStringSimilarity a b
          = (((max a.toList.length b.toList.length : ℕ) : ℚ)
              - (levenshteinDistance a.toList b.toList : ℚ))
            / ((max a.toList.length b.toList.length : ℕ) : ℚ) := by
  refine ⟨calculateStringSimilarity_comm, calculateStringSimilarity_self, by decide, ?_⟩
  intro a b hpos
  simp only [calculateStringSimilarity]
  by_cases h : b.toList.length < a.toList.length
  · have hmax : max a.toList.length b.toList.length = a.toList.length := by omega
    rw [if_pos h, if_pos h, hmax, if_neg (by omega)]
  · have hmax : max a.toList.length b.toList.length = b.toList.length := by omega
    rw [if_neg h, if_neg h, hmax, levenshteinDistance_comm b.toList a.toList,
      if_neg (by omega)]

theorem calculateStringSimilarity_spec_witness :
    0 < max ("ab".toList.length) ("".toList.length)
    ∧ calculateStringSimilarity "ab" ""
        = (((max ("ab".toList.length) ("".toList.length) : ℕ) : ℚ)
            - (levenshteinDistance "ab".toList "".toList : ℚ))
          / ((max ("ab".toList.length) ("".toList.length) : ℕ) : ℚ) :=
  ⟨by decide, calculateStringSimilarity_spec.2.2.2 "ab" "" (by decide)⟩

theorem titleScore_exact (t : String) (c : Candidate)
    (h : cleanedTitle (displayTitle c) = cleanedTitle t) : titleScore t c = 100 := by
  rw [titleScore, if_pos h]

theorem titleScore_le_sixty (t : String) (c : Candidate)
    (h2 : cleanedTitle (displayTitle c) ≠ cleanedTitle t)
    (h3 : hasSubstr (cleanedTitle t).toList (cleanedTitle (displayTitle c)).toList = false)
    (h4 : hasSubstr (cleanedTitle (displayTitle c)).toList (cleanedTitle t).toList = false) :
    titleScore t c ≤ 60 := by
  rw [titleScore, if_neg h2, h3, h4]
  simp only [Bool.or_self, Bool.false_eq_true, if_false]
  have hle := calculateStringSimilarity_le_one (cleanedTitle t) (cleanedTitle (displayTitle c))
  nlinarith

theorem popScore_le_ten (c : Candidate) : popScore c ≤ 10 := min_le_right _ _

theorem popScore_nonneg (c : Candidate) (h : 0 ≤ c.popularity) : 0 ≤ popScore c :=
  le_min (by positivity) (by norm_num)

theorem voteScore_le_twenty (c : Candidate) : voteScore c ≤ 20 := min_le_right _ _

theorem voteScore_nonneg (c : Candidate) (h : 0 ≤ c.vote_average) : 0 ≤ voteScore c :=
  le_min (by positivity) (by norm_num)

theorem oldPenalty_nonneg (c : Candidate) : 0 ≤ oldPenalty c := by
  rw [oldPenalty]
  rcases c.releaseYear with _ | y
  · norm_num
  · dsimp only
    split <;> norm_num

theorem oldPenalty_eq_zero (c : Candidate)
    (h : ∀ y, c.releaseYear = some y → y < 1990 → 7 ≤ c.vote_average) : oldPenalty c = 0 := by
  rw [oldPenalty]
  rcases hy : c.releaseYear with _ | y
  · rfl
  · dsimp only
    rw [if_neg]
    rintro ⟨h1, h2⟩
    exact absurd (h y hy h1) (by linarith)

theorem scoreCandidate_exact_gt (currentYear : Int) (t countryCode : String)
    (c1 c2 : Candidate)
    (h1 : cleanedTitle (displayTitle c1) = cleanedTitle t)
    (h2 : cleanedTitle (displayTitle c2) ≠ cleanedTitle t)
    (h3 : hasSubstr (cleanedTitle t).toList (cleanedTitle (displayTitle c2)).toList = false)
    (h4 : hasSubstr (cleanedTitle (displayTitle c2)).toList (cleanedTitle t).toList = false)
    (hy : c1.releaseYear = c2.releaseYear)
    (ho : c1.origin_country = c2.origin_country)
    (hp1 : 0 ≤ c1.popularity) (hv1 : 0 ≤ c1.vote_average)
    (hpen : ∀ y, c1.releaseYear = some y → y < 1990 → 7 ≤ c1.vote_average) :
    scoreCandidate currentYear t countryCode c2 < scoreCandidate currentYear t countryCode c1 := by
  have hd : dateScore currentYear countryCode c1 = dateScore currentYear countryCode c2 := by
    rw [dateScore, dateScore, hy]
  have hor : originScore countryCode c1 = originScore countryCode c2 := by
    rw [originScore, originScore, ho]
  have ht1 := titleScore_exact t c1 h1
  have ht2 := titleScore_le_sixty t c2 h2 h3 h4
  have hpop1 := popScore_nonneg c1 hp1
  have hpop2 := popScore_le_ten c2
  have hvote1 := voteScore_nonneg c1 hv1
  have hvote2 := voteScore_le_twenty c2
  have hpen1 := oldPenalty_eq_zero c1 hpen
  have hpen2 := oldPenalty_nonneg c2
  rw [scoreCandidate, scoreCandidate]
  linarith

theorem filterByMediaType_pair (c1 c2 : Candidate) (mediaType : String)
    (hmt : mediaType = "multi"
      ∨ (jsOr c1.media_type mediaType = mediaType ∧ jsOr c2.media_type mediaType = mediaType)) :
    filterByMediaType [c1, c2] mediaType = [c1, c2] := by
  by_cases hm : mediaType = "multi"
  · rw [filterByMediaType, if_pos hm]
  · rcases hmt with hmt | ⟨ha, hb⟩
    · exact absurd hmt hm
    · rw [filterByMediaType, if_neg hm]
      simp only [List.filter, decide_eq_true ha, decide_eq_true hb]

/-- Claim C3 (amended): if one candidate's cleaned title exactly equals the
cleaned input title and the other candidate's cleaned title differs from it
and neither contains nor is contained in it, and the two candidates agree on
release year and origin country, the near candidate having the higher
popularity and rating (those of the exact candidate being non-negative), and
the shared year triggers no stale-content penalty for the exact candidate,
and both candidates pass the media-type filter, then the match engine
selects the exact-title candidate, whichever order the search returned the
two candidates in. -/
theorem findBestMatch_exact_beats_near (currentYear : Int)
    (originalTitle countryCode mediaType : String) (c1 c2 : Candidate)
    (h1 : cleanedTitle (displayTitle c1) = cleanedTitle originalTitle)
    (h2 : cleanedTitle (displayTitle c2) ≠ cleanedTitle originalTitle)
    (h3 : hasSubstr (cleanedTitle originalTitle).toList (cleanedTitle (displayTitle c2)).toList = false)
    (h4 : hasSubstr (cleanedTitle (displayTitle c2)).toList (cleanedTitle originalTitle).toList = false)
    (hy : c1.releaseYear = c2.releaseYear)
    (ho : c1.origin_country = c2.origin_country)
    (hp : c1.popularity < c2.popularity) (hp1 : 0 ≤ c1.popularity)
    (hv : c1.vote_average < c2.vote_average) (hv1 : 0 ≤ c1.vote_average)
    (hpen : ∀ y, c1.releaseYear = some y → y < 1990 → 7 ≤ c1.vote_average)
    (hmt : mediaType = "multi"
      ∨ (jsOr c1.media_type mediaType = mediaType ∧ jsOr c2.media_type mediaType = mediaType)) :
    findBestMatch currentYear [c1, c2] originalTitle countryCode mediaType = some c1
    ∧ findBestMatch currentYear [c2, c1] originalTitle countryCode mediaType = some c1 := by
  have hlt := scoreCandidate_exact_gt currentYear originalTitle countryCode c1 c2
    h1 h2 h3 h4 hy ho hp1 hv1 hpen
  have hf1 := filterByMediaType_pair c1 c2 mediaType hmt
  have hf2 := filterByMediaType_pair c2 c1 mediaType
    (hmt.elim Or.inl (fun h => Or.inr ⟨h.2, h.1⟩))
  constructor
  · rw [findBestMatch]
    rw [hf1]
    simp only [List.map, pickTopScored, List.foldl]
    rw [if_neg (not_lt.mpr (le_of_lt hlt))]
  · rw [findBestMatch]
    rw [hf2]
    simp only [List.map, pickTopScored, List.foldl]
    rw [if_pos hlt]

/-- Claim C3 counterexample: with input title "my show", the candidate
`nearCand` (cleaned title "my show 2", which differs from but contains the
cleaned input) has higher popularity and rating than the exact-title
candidate `exactCand` and agrees with it on date and origin country, yet
`findBestMatch` does not select the exact-title candidate: the containment
bonus (80) plus the popularity and rating tiebreakers (10 + 20) exceed the
exact-match bonus (100) of a candidate with zero popularity and rating. -/
theorem findBestMatch_containment_counterexample :
    cleanedTitle (displayTitle exactCand) = cleanedTitle "my show"
    ∧ cleanedTitle (displayTitle nearCand) ≠ cleanedTitle "my show"
    ∧ exactCand.popularity < nearCand.popularity
    ∧ exactCand.vote_average < nearCand.vote_average
    ∧ exactCand.releaseYear = nearCand.releaseYear
    ∧ exactCand.origin_country = nearCand.origin_country
    ∧ findBestMatch 2025 [exactCand, nearCand] "my show" "PH" "multi" ≠ some exactCand := by
  have hs1 : scoreCandidate 2025 "my show" "PH" exactCand = 155 := by
    rw [scoreCandidate, titleScore, if_pos (by decide), dateScore]
    rw [originScore, if_pos (by decide), popScore, voteScore, oldPenalty]
    simp only [exactCand]
    norm_num
  have hs2 : scoreCandidate 2025 "my show" "PH" nearCand = 165 := by
    rw [scoreCandidate, titleScore, if_neg (by decide)]
    rw [if_pos (by decide), dateScore]
    rw [originScore, if_pos (by decide), popScore, voteScore, oldPenalty]
    simp only [nearCand]
    norm_num
  have heval : findBestMatch 2025 [exactCand, nearCand] "my show" "PH" "multi" = some nearCand := by
    rw [findBestMatch]
    rw [show filterByMediaType [exactCand, nearCand] "multi" = [exactCand, nearCand] by decide]
    simp only [List.map, pickTopScored, List.foldl, hs1, hs2]
    rw [if_pos (by norm_num)]
  refine ⟨by decide, by decide, by decide, by decide, by decide, by decide, ?_⟩
  rw [heval]
  intro hcontra
  exact absurd (Option.some.inj hcontra) (by decide)

/-- Claim C3 witness: concrete instance of `findBestMatch_exact_beats_near`
with the non-containing near candidate `farCand`. -/
theorem findBestMatch_exact_beats_near_witness :
    findBestMatch 2025 [exactCand, farCand] "my show" "PH" "multi" = some exactCand
    ∧ findBestMatch 2025 [farCand, exactCand] "my show" "PH" "multi" = some exactCand :=
  findBestMatch_exact_beats_near 2025 "my show" "PH" "multi" exactCand farCand
    (by decide) (by decide) (by decide) (by decide) (by decide) (by decide)
    (by decide) (by decide) (by decide) (by decide)
    (fun y hy hlt => absurd hlt (by simp only [exactCand] at hy; injection hy with h; omega))
    (Or.inl rfl)

theorem filterByMediaType_ne_nil (c : Candidate) (cs : List Candidate) (mediaType : String) :
    filterByMediaType (c :: cs) mediaType ≠ [] := by
  rw [filterByMediaType]
  split
  · exact List.cons_ne_nil c cs
  · split
    · exact List.cons_ne_nil c cs
    · exact List.cons_ne_nil _ _

theorem exists_findBestMatch (currentYear : Int) (c : Candidate) (cs : List Candidate)
    (originalTitle countryCode mediaType : String) :
    ∃ b, findBestMatch currentYear (c :: cs) originalTitle countryCode mediaType = some b := by
  rw [findBestMatch]
  rcases hf : filterByMediaType (c :: cs) mediaType with _ | ⟨f, fs⟩
  · exact absurd hf (filterByMediaType_ne_nil c cs mediaType)
  · simp only [List.map, pickTopScored]
    exact ⟨_, rfl⟩

/-- Claim C10: under a definite (non-multi) media type, a candidate with an
absent `media_type` passes the filter of `findBestMatch` (it is treated as
having the requested type); when the filter eliminates every candidate the
unfiltered list is used; and a non-empty candidate list always yields a
match rather than none. -/
theorem findBestMatch_media_filter (currentYear : Int) (results : List Candidate)
    (originalTitle countryCode mediaType : String) :
    (mediaType ≠ "multi" → ∀ c ∈ results, c.media_type = none →
      c ∈ filterByMediaType results mediaType)
    ∧ (mediaType ≠ "multi" →
        results.filter (fun r => decide (jsOr r.media_type mediaType = mediaType)) = [] →
        filterByMediaType results mediaType = results)
    ∧ (results ≠ [] →
        ∃ b, findBestMatch currentYear results originalTitle countryCode mediaType = some b) := by
  refine ⟨?_, ?_, ?_⟩
  · intro hmt c hc habsent
    rw [filterByMediaType, if_neg hmt]
    have hcf : c ∈ results.filter (fun r => decide (jsOr r.media_type mediaType = mediaType)) :=
      List.mem_filter.mpr ⟨hc, by rw [habsent]; simp [jsOr]⟩
    rcases hfil : results.filter (fun r => decide (jsOr r.media_type mediaType = mediaType)) with _ | ⟨f, fs⟩
    · rw [hfil]
      exact hc
    · rw [hfil]
      rw [hfil] at hcf
      exact hcf
  · intro hmt hfil
    rw [filterByMediaType, if_neg hmt, hfil]
  · intro hne
    rcases results with _ | ⟨c, cs⟩
    · exact absurd rfl hne
    · exact exists_findBestMatch currentYear c cs originalTitle countryCode mediaType

/-- Claim C10 witness: a type-less candidate passes the "movie" filter and
is matched; a list whose single candidate has type "tv" empties the "movie"
filter and falls back to the whole list. -/
theorem findBestMatch_media_filter_witness :
    ((⟨7, some "A", none, none, none, [], 0, 0⟩ : Candidate)
        ∈ filterByMediaType [⟨7, some "A", none, none, none, [], 0, 0⟩] "movie")
    ∧ (filterByMediaType [(⟨8, some "B", none, some "tv", none, [], 0, 0⟩ : Candidate)] "movie"
        = [⟨8, some "B", none, some "tv", none, [], 0, 0⟩])
    ∧ ∃ b, findBestMatch 2025 [(⟨7, some "A", none, none, none, [], 0, 0⟩ : Candidate)] "A" "PH" "movie" = some b := by
  refine ⟨?_, ?_, ?_⟩
  · exact (findBestMatch_media_filter 2025 [⟨7, some "A", none, none, none, [], 0, 0⟩] "A" "PH" "movie").1
      (by decide) _ (by decide) (by decide)
  · exact (findBestMatch_media_filter 2025 [⟨8, some "B", none, some "tv", none, [], 0, 0⟩] "B" "PH" "movie").2.1
      (by decide) (by decide)
  · exact (findBestMatch_media_filter 2025 [⟨7, some "A", none, none, none, [], 0, 0⟩] "A" "PH" "movie").2.2
      (by decide)

theorem runStrategies_none_iff (currentYear : Int) (search : SearchFn)
    (title mediaType countryCode : String) :
    ∀ (l : List (String × Option String)) (i : Nat),
      (runStrategies currentYear search title mediaType countryCode i l).1 = none ↔
        ∀ s ∈ l, search mediaType s.1 s.2 = Except.error ()
          ∨ search mediaType s.1 s.2 = Except.ok [] := by
  intro l
  induction l with
  | nil => intro i; simp [runStrategies]
  | cons s rest ih =>
    intro i
    obtain ⟨q, reg⟩ := s
    rcases hcall : search mediaType q reg with e | res
    · cases e
      simp only [runStrategies, hcall]
      rw [ih (i + 1)]
      simp [hcall]
    · rcases res with _ | ⟨r, rs⟩
      · simp only [runStrategies, hcall]
        rw [ih (i + 1)]
        simp [hcall]
      · obtain ⟨b, hb⟩ := exists_findBestMatch currentYear r rs title countryCode mediaType
        simp only [runStrategies, hcall, hb]
        constructor
        · intro h
          exact absurd h (by simp)
        · intro h
          have hdead := h (q, reg) (List.mem_cons_self _ _)
          simp [hcall] at hdead
  
theorem runStrategies_errorsAsEmpty (currentYear : Int) (search : SearchFn)
    (title mediaType countryCode : String) :
    ∀ (l : List (String × Option String)) (i : Nat),
      runStrategies currentYear (errorsAsEmpty search) title mediaType countryCode i l
        = runStrategies currentYear search title mediaType countryCode i l := by
  intro l
  induction l with
  | nil => intro i; rfl
  | cons s rest ih =>
    intro i
    obtain ⟨q, reg⟩ := s
    rcases hcall : search mediaType q reg with e | res
    · cases e
      simp only [runStrategies, errorsAsEmpty, hcall, ih]
    · rcases res with _ | ⟨r, rs⟩
      · simp only [runStrategies, errorsAsEmpty, hcall, ih]
      · rcases hfb : findBestMatch currentYear (r :: rs) title countryCode mediaType with _ | b <;>
          simp only [runStrategies, errorsAsEmpty, hcall, hfb, ih]

/-- Claim C8: `searchTMDB` (a total function in this embedding, the source
catches every per-strategy rejection) reports an absent match exactly when
every one of the four strategies either has its search call rejected or
returns zero results; moreover replacing every rejected call by an empty
result list leaves the whole cascade's behaviour, trace included, unchanged
- a failing call is treated exactly like zero results. -/
theorem searchTMDB_absent_iff_no_candidates (currentYear : Int) (search : SearchFn)
    (title mediaType countryCode : String) :
    ((searchTMDB currentYear search title mediaType countryCode).1 = none ↔
      ∀ s ∈ searchStrategies title countryCode,
        search mediaType s.1 s.2 = Except.error ()
          ∨ search mediaType s.1 s.2 = Except.ok [])
    ∧ searchTMDB currentYear (errorsAsEmpty search) title mediaType countryCode
        = searchTMDB currentYear search title mediaType countryCode := by
  constructor
  · exact runStrategies_none_iff currentYear search title mediaType countryCode _ 0
  · exact runStrategies_errorsAsEmpty currentYear search title mediaType countryCode _ 0

/-- Claim C2: the strategies are exactly the four documented queries in
order (normalized title with region, normalized title, country indicators
removed, first three tokens); when the first `k` strategies fail or return
no results and strategy `k` returns a non-empty list, the engine returns the
best match of that list tagged with `search_strategy_used = k + 1`, and the
issued calls are exactly strategies 1 through k+1 - later strategies are
never issued. -/
theorem searchTMDB_strategy_cascade (currentYear : Int) (search : SearchFn)
    (title mediaType countryCode : String) (k : Nat) (res : List Candidate)
    (hk : k < 4)
    (hfail : ∀ j, j < k →
      search mediaType ((searchStrategies title countryCode).getD j ("", none)).1
          ((searchStrategies title countryCode).getD j ("", none)).2 = Except.error ()
        ∨ search mediaType ((searchStrategies title countryCode).getD j ("", none)).1
            ((searchStrategies title countryCode).getD j ("", none)).2 = Except.ok [])
    (hok : search mediaType ((searchStrategies title countryCode).getD k ("", none)).1
        ((searchStrategies title countryCode).getD k ("", none)).2 = Except.ok res)
    (hne : res ≠ []) :
    searchStrategies title countryCode
      = [ (cleanTitleForSearch title, some countryCode),
          (cleanTitleForSearch title, none),
          (removeCountryIndicators (cleanTitleForSearch title), none),
          (String.intercalate " " (((cleanTitleForSearch title).splitOn " ").take 3), none) ]
    ∧ ∃ b, findBestMatch currentYear res title countryCode mediaType = some b
        ∧ searchTMDB currentYear search title mediaType countryCode
            = (some (mkTMDBResult b mediaType (k + 1)), List.range' 1 (k + 1)) := by
  obtain ⟨r, rs, rfl⟩ : ∃ r rs, res = r :: rs := by
    rcases res with _ | ⟨r, rs⟩
    · exact absurd rfl hne
    · exact ⟨r, rs, rfl⟩
  obtain ⟨b, hb⟩ := exists_findBestMatch currentYear r rs title countryCode mediaType
  refine ⟨rfl, b, hb, ?_⟩
  interval_cases k
  · simp only [searchStrategies, List.getD, List.get?, Option.getD] at hok
    simp only [searchTMDB, searchStrategies, runStrategies, hok, hb, List.range']
  · have h0 := hfail 0 (by omega)
    simp only [searchStrategies, List.getD, List.get?, Option.getD] at h0 hok
    rcases h0 with h0 | h0 <;>
      simp only [searchTMDB, searchStrategies, runStrategies, h0, hok, hb, List.range']
  · have h0 := hfail 0 (by omega)
    have h1 := hfail 1 (by omega)
    simp only [searchStrategies, List.getD, List.get?, Option.getD] at h0 h1 hok
    rcases h0 with h0 | h0 <;> rcases h1 with h1 | h1 <;>
      simp only [searchTMDB, searchStrategies, runStrategies, h0, h1, hok, hb, List.range']
  · have h0 := hfail 0 (by omega)
    have h1 := hfail 1 (by omega)
    have h2 := hfail 2 (by omega)
    simp only [searchStrategies, List.getD, List.get?, Option.getD] at h0 h1 h2 hok
    rcases h0 with h0 | h0 <;> rcases h1 with h1 | h1 <;> rcases h2 with h2 | h2 <;>
      simp only [searchTMDB, searchStrategies, runStrategies, h0, h1, h2, hok, hb, List.range']

/-- Claim C2 witness: an oracle rejecting region-filtered calls makes
strategy 1 fail and strategy 2 succeed, so the match carries
`search_strategy_used = 2` and only strategies 1 and 2 were issued. -/
theorem searchTMDB_strategy_cascade_witness :
    ∃ b, findBestMatch 2025 [(⟨9, some "W", none, none, none, [], 0, 0⟩ : Candidate)] "t" "PH" "tv" = some b
      ∧ searchTMDB 2025
          (fun _ _ reg => match reg with
            | some _ => Except.error ()
            | none => Except.ok [⟨9, some "W", none, none, none, [], 0, 0⟩])
          "t" "tv" "PH"
        = (some (mkTMDBResult b "tv" 2), List.range' 1 2) :=
  (searchTMDB_strategy_cascade 2025
    (fun _ _ reg => match reg with
      | some _ => Except.error ()
      | none => Except.ok [⟨9, some "W", none, none, none, [], 0, 0⟩])
    "t" "tv" "PH" 1 [⟨9, some "W", none, none, none, [], 0, 0⟩]
    (by omega) (fun j hj => by interval_cases j; exact Or.inl rfl) rfl
    (by simp)).2

theorem enrichItem_core (currentYear : Int) (search : SearchFn) (countryCode : String)
    (item : Item) :
    (enrichItem currentYear search countryCode item).rank = item.rank
    ∧ (enrichItem currentYear search countryCode item).title = item.title
    ∧ (enrichItem currentYear search countryCode item).category = item.category := by
  simp only [enrichItem]
  split <;> simp

theorem enrichItem_no_match (currentYear : Int) (search : SearchFn) (countryCode : String)
    (item : Item)
    (h1 : (searchTMDB currentYear search item.title (itemMediaType item) countryCode).1 = none)
    (h2 : (searchTMDB currentYear search item.title "multi" countryCode).1 = none) :
    enrichItem currentYear search countryCode item = item := by
  simp only [enrichItem, h1, h2]

theorem enrichLoop_append (currentYear : Int) (search : SearchFn) (countryCode : String)
    (pre post : List Item) (item : Item) :
    enrichLoop currentYear search countryCode (pre ++ item :: post)
      = enrichLoop currentYear search countryCode pre
        ++ enrichItem currentYear search countryCode item
        :: enrichLoop currentYear search countryCode post := by
  induction pre with
  | nil => rfl
  | cons p ps ih => simp only [List.cons_append, enrichLoop, List.append_eq, ih]

/-- Claim C7: the enrichment orchestrator returns a list of the same length
and order whose entries keep their `rank`, `title` and `category`
unchanged (only the TMDB match fields are added); and when both the
category-typed search and the `multi` retry find nothing for one entry, that
entry passes through unchanged (no match fields) while every other entry is
still processed - one entry's failure never aborts the batch. -/
theorem enrichWithTMDB_frame (currentYear : Int) (search : SearchFn) (hasKey : Bool)
    (items : List Item) (countryCode : String) :
    (enrichWithTMDB currentYear search hasKey items countryCode).map
        (fun it => (it.rank, it.title, it.category))
      = items.map (fun it => (it.rank, it.title, it.category))
    ∧ (enrichWithTMDB currentYear search hasKey items countryCode).length = items.length
    ∧ ∀ pre item post, hasKey = true → items = pre ++ item :: post →
        (searchTMDB currentYear search item.title (itemMediaType item) countryCode).1 = none →
        (searchTMDB currentYear search item.title "multi" countryCode).1 = none →
        enrichWithTMDB currentYear search hasKey items countryCode
          = enrichLoop currentYear search countryCode pre
            ++ item :: enrichLoop currentYear search countryCode post := by
  have hmap : ∀ l : List Item,
      (enrichLoop currentYear search countryCode l).map (fun it => (it.rank, it.title, it.category))
        = l.map (fun it => (it.rank, it.title, it.category)) := by
    intro l
    induction l with
    | nil => rfl
    | cons x xs ih =>
      obtain ⟨h1, h2, h3⟩ := enrichItem_core currentYear search countryCode x
      simp only [enrichLoop, List.map, ih, h1, h2, h3]
  have hcore : (enrichWithTMDB currentYear search hasKey items countryCode).map
      (fun it => (it.rank, it.title, it.category))
        = items.map (fun it => (it.rank, it.title, it.category)) := by
    rcases hasKey with _ | _
    · rfl
    · rw [enrichWithTMDB, if_pos rfl]
      exact hmap items
  refine ⟨hcore, ?_, ?_⟩
  · have := congrArg List.length hcore
    simpa using this
  · intro pre item post hk hsplit h1 h2
    subst hk
    subst hsplit
    rw [enrichWithTMDB, if_pos rfl, enrichLoop_append,
      enrichItem_no_match currentYear search countryCode item h1 h2]

/-- Claim C7 witness: with an always-rejecting search collaborator the
single item passes through unchanged while the surrounding (empty) sublists
are still processed. -/
theorem enrichWithTMDB_frame_witness :
    enrichWithTMDB 2025 (fun _ _ _ => Except.error ()) true
        [⟨1, "A", "TV Show", "", "Philippines", "Netflix", none⟩] "PH"
      = enrichLoop 2025 (fun _ _ _ => Except.error ()) "PH" []
          ++ (⟨1, "A", "TV Show", "", "Philippines", "Netflix", none⟩ : Item)
          :: enrichLoop 2025 (fun _ _ _ => Except.error ()) "PH" [] :=
  (enrichWithTMDB_frame 2025 (fun _ _ _ => Except.error ()) true
      [⟨1, "A", "TV Show", "", "Philippines", "Netflix", none⟩] "PH").2.2
    [] ⟨1, "A", "TV Show", "", "Philippines", "Netflix", none⟩ [] rfl rfl
    (by decide) (by decide)

theorem mem_rankCandidates_iff (r : Int) : r ∈ rankCandidates ↔ 1 ≤ r ∧ r ≤ 10 := by
  simp only [rankCandidates, List.mem_cons, List.not_mem_nil, or_false]
  omega

theorem rankCandidates_sorted : List.Sorted (fun a b => a < b) rankCandidates := by
  decide

theorem find?_first_lt (l : List Int) : ∀ (p : Int → Bool) (r x : Int),
    List.Sorted (fun a b => a < b) l → l.find? p = some r →
    x ∈ l → p x = true → x ≠ r → r < x := by
  induction l with
  | nil => intro p r x hs h hx; simp at h
  | cons a t ih =>
    intro p r x hs h hx hpx hne
    rcases List.sorted_cons.mp hs with ⟨ha, ht⟩
    by_cases hpa : p a = true
    · rw [List.find?_cons_of_pos _ hpa] at h
      obtain rfl : a = r := by injection h
      rcases List.mem_cons.mp hx with hx1 | hx1
      · exact absurd hx1 hne
      · exact ha x hx1
    · rw [List.find?_cons_of_neg _ (by simpa using hpa)] at h
      rcases List.mem_cons.mp hx with hx1 | hx1
      · exact absurd (hx1 ▸ hpx) hpa
      · exact ih p r x ht h hx1 hpx hne
  
theorem dedupRanksGo_spec (l : List Entry) : ∀ seen : List Int,
    ((dedupRanksGo seen l).map Entry.rank).Nodup
    ∧ (∀ e ∈ dedupRanksGo seen l, e.rank ∉ seen ∧ 1 ≤ e.rank ∧ e.rank ≤ 10)
    ∧ (dedupRanksGo seen l).Sublist l := by
  induction l with
  | nil => intro seen; refine ⟨by simp [dedupRanksGo], by simp [dedupRanksGo], by simp [dedupRanksGo]⟩
  | cons e rest ih =>
    intro seen
    rw [dedupRanksGo]
    split
    · next hcond =>
      obtain ⟨hn, hb1, hb2⟩ := hcond
      obtain ⟨ihn, ihp, ihs⟩ := ih (e.rank :: seen)
      refine ⟨?_, ?_, ?_⟩
      · rw [List.map_cons, List.nodup_cons]
        exact ⟨fun hmem => by
          obtain ⟨x, hx, hxr⟩ := List.mem_map.mp hmem
          exact (ihp x hx).1 (by rw [hxr]; exact List.mem_cons_self _ _), ihn⟩
      · intro x hx
        rcases List.mem_cons.mp hx with hx1 | hx1
        · exact hx1 ▸ ⟨hn, hb1, hb2⟩
        · obtain ⟨hy1, hy2, hy3⟩ := ihp x hx1
          exact ⟨fun hmem => hy1 (List.mem_cons_of_mem _ hmem), hy2, hy3⟩
      · exact List.Sublist.cons₂ e ihs
    · obtain ⟨ihn, ihp, ihs⟩ := ih seen
      exact ⟨ihn, ihp, List.Sublist.cons e ihs⟩

theorem dedupRanksGo_mem (l : List Entry) : ∀ (seen : List Int) (r : Int),
    r ∈ l.map Entry.rank → 1 ≤ r → r ≤ 10 → r ∉ seen →
    r ∈ (dedupRanksGo seen l).map Entry.rank := by
  induction l with
  | nil => intro seen r h; simp at h
  | cons e rest ih =>
    intro seen r hmem h1 h10 hseen
    rw [dedupRanksGo]
    split
    · next hcond =>
      rcases List.mem_cons.mp hmem with hx | hx
      · rw [List.map_cons]
        exact hx ▸ List.mem_cons_self _ _
      · by_cases hr : r = e.rank
        · rw [List.map_cons, hr]
          exact List.mem_cons_self _ _
        · rw [List.map_cons]
          exact List.mem_cons_of_mem _
            (ih (e.rank :: seen) r hx h1 h10 (by simp [hseen, hr]))
    · next hcond =>
      rcases List.mem_cons.mp hmem with hx | hx
      · exact absurd ⟨hx ▸ hseen, hx ▸ h1, hx ▸ h10⟩ hcond
      · exact ih seen r hx h1 h10 hseen

theorem nodup_ranks_length_le (l : List Int) (hn : l.Nodup)
    (hb : ∀ r ∈ l, 1 ≤ r ∧ r ≤ 10) : l.length ≤ 10 :=
  (List.Nodup.subperm hn (fun r hr => (mem_rankCandidates_iff r).mpr (hb r hr))).length_le

theorem fillMissingRanks_spec (links : List String) :
    ∀ (cur : List Entry) (seen : List Int) (category : String),
    ∃ extra, fillMissingRanks links cur seen category = cur ++ extra
      ∧ List.Sorted (fun a b => a < b) (extra.map Entry.rank)
      ∧ ∀ e ∈ extra, e.rank ∈ rankCandidates ∧ e.rank ∉ seen := by
  induction links with
  | nil =>
    intro cur seen category
    exact ⟨[], by simp [fillMissingRanks], by simp, by simp⟩
  | cons t rest ih =>
    intro cur seen category
    rw [fillMissingRanks]
    split
    · exact ih cur seen category
    · rcases hfind : rankCandidates.find? (fun r => decide (r ∉ seen)) with _ | r
      · simp only [hfind]
        split
        · exact ⟨[], by simp, by simp, by simp⟩
        · exact ih cur seen category
      · simp only [hfind]
        have hrmem := List.mem_of_find?_eq_some hfind
        have hrseen : r ∉ seen := by simpa using List.find?_some hfind
        split
        · refine ⟨[mkFillEntry r t category], rfl, by simp, ?_⟩
          intro e hmem
          rcases List.mem_cons.mp hmem with h1 | h1
          · exact h1 ▸ ⟨by simpa [mkFillEntry] using hrmem, by simpa [mkFillEntry] using hrseen⟩
          · simp at h1
        · obtain ⟨extra, he, hs, hp⟩ := ih (cur ++ [mkFillEntry r t category]) (r :: seen) category
          refine ⟨mkFillEntry r t category :: extra, ?_, ?_, ?_⟩
          · rw [he, List.append_assoc]
            rfl
          · rw [List.map_cons, List.sorted_cons]
            refine ⟨?_, hs⟩
            intro b hbmem
            obtain ⟨e, he2, rfl⟩ := List.mem_map.mp hbmem
            obtain ⟨hem, hens⟩ := hp e he2
            have hner : e.rank ≠ r := fun hcontra => hens (hcontra ▸ List.mem_cons_self _ _)
            have hpe : (fun x => decide (x ∉ seen)) e.rank = true := by
              simp only [decide_eq_true_eq]
              exact fun hmem => hens (List.mem_cons_of_mem _ hmem)
            have hrk : (mkFillEntry r t category).rank = r := rfl
            rw [hrk]
            exact find?_first_lt rankCandidates _ r e.rank rankCandidates_sorted hfind hem hpe hner
          · intro e hmem
            rcases List.mem_cons.mp hmem with h1 | h1
            · exact h1 ▸ ⟨by simpa [mkFillEntry] using hrmem, by simpa [mkFillEntry] using hrseen⟩
            · obtain ⟨hm, hn⟩ := hp e h1
              exact ⟨hm, fun hcontra => hn (List.mem_cons_of_mem _ hcontra)⟩

theorem finalizePass_sorted (results : List Entry) :
    List.Sorted (fun a b : Int => a ≤ b) ((finalizePass results).map Entry.rank) := by
  have hsorted : List.Sorted rankLE (List.insertionSort rankLE results) :=
    List.sorted_insertionSort rankLE results
  have hsub : (finalizePass results).Sublist (List.insertionSort rankLE results) :=
    (dedupRanksGo_spec _ []).2.2
  have hpair : List.Pairwise rankLE (finalizePass results) :=
    List.Pairwise.sublist hsub hsorted
  exact List.pairwise_map.mpr hpair

theorem finalizePass_nodup (results : List Entry) :
    ((finalizePass results).map Entry.rank).Nodup :=
  (dedupRanksGo_spec _ []).1

theorem finalizePass_bounds (results : List Entry) :
    ∀ e ∈ finalizePass results, 1 ≤ e.rank ∧ e.rank ≤ 10 :=
  fun e he => ((dedupRanksGo_spec _ []).2.1 e he).2

theorem finalizePass_mem (results : List Entry) (r : Int)
    (h : r ∈ results.map Entry.rank) (h1 : 1 ≤ r) (h10 : r ≤ 10) :
    r ∈ (finalizePass results).map Entry.rank := by
  apply dedupRanksGo_mem _ [] r ?_ h1 h10 (by simp)
  have hperm := List.perm_insertionSort rankLE results
  exact ((hperm.map Entry.rank).mem_iff).mpr h

theorem parseTableData_split (results : List Entry) (allTitleLinks : List String)
    (sectionType : String) :
    ∃ extra, parseTableData results allTitleLinks sectionType = finalizePass results ++ extra
      ∧ List.Sorted (fun a b : Int => a < b) (extra.map Entry.rank)
      ∧ ∀ e ∈ extra, e.rank ∈ rankCandidates
          ∧ e.rank ∉ (finalizePass results).map Entry.rank := by
  rw [parseTableData]
  split
  · exact fillMissingRanks_spec allTitleLinks (finalizePass results)
      ((finalizePass results).map Entry.rank) _
  · exact ⟨[], by simp, by simp, by simp⟩

theorem parseTableData_nodup (results : List Entry) (allTitleLinks : List String)
    (sectionType : String) :
    ((parseTableData results allTitleLinks sectionType).map Entry.rank).Nodup := by
  obtain ⟨extra, heq, hsort, hprop⟩ := parseTableData_split results allTitleLinks sectionType
  rw [heq, List.map_append]
  refine List.nodup_append.mpr ⟨finalizePass_nodup results, ?_, ?_⟩
  · exact List.Pairwise.imp (fun h => ne_of_lt h) hsort
  · intro a ha hb
    obtain ⟨e, he, rfl⟩ := List.mem_map.mp hb
    exact (hprop e he).2 ha

theorem parseTableData_bounds (results : List Entry) (allTitleLinks : List String)
    (sectionType : String) :
    ∀ e ∈ parseTableData results allTitleLinks sectionType, 1 ≤ e.rank ∧ e.rank ≤ 10 := by
  obtain ⟨extra, heq, hsort, hprop⟩ := parseTableData_split results allTitleLinks sectionType
  rw [heq]
  intro e he
  rcases List.mem_append.mp he with h | h
  · exact finalizePass_bounds results e h
  · exact (mem_rankCandidates_iff e.rank).mp (hprop e h).1

theorem parseTableData_length_le (results : List Entry) (allTitleLinks : List String)
    (sectionType : String) :
    (parseTableData results allTitleLinks sectionType).length ≤ 10 := by
  have hlen : (parseTableData results allTitleLinks sectionType).length
      = ((parseTableData results allTitleLinks sectionType).map Entry.rank).length :=
    (List.length_map _ _).symm
  rw [hlen]
  refine nodup_ranks_length_le _ (parseTableData_nodup results allTitleLinks sectionType) ?_
  intro r hr
  obtain ⟨e, he, rfl⟩ := List.mem_map.mp hr
  exact parseTableData_bounds results allTitleLinks sectionType e he

theorem parseTableData_mem (results : List Entry) (allTitleLinks : List String)
    (sectionType : String) (r : Int)
    (h : r ∈ results.map Entry.rank) (h1 : 1 ≤ r) (h10 : r ≤ 10) :
    r ∈ (parseTableData results allTitleLinks sectionType).map Entry.rank := by
  obtain ⟨extra, heq, hsort, hprop⟩ := parseTableData_split results allTitleLinks sectionType
  rw [heq, List.map_append]
  exact List.mem_append_left _ (finalizePass_mem results r h h1 h10)

/-- Claim C1: for every accumulated stage output and every anchor list, the
reconciliation of `parseTableData` (final sort, rank dedup, gap fill)
returns at most 10 entries, every entry's rank is an integer in 1..10, and
no two entries share a rank. -/
theorem parseTableData_invariants (results : List Entry) (allTitleLinks : List String)
    (sectionType : String) :
    (parseTableData results allTitleLinks sectionType).length ≤ 10
    ∧ (∀ e ∈ parseTableData results allTitleLinks sectionType, 1 ≤ e.rank ∧ e.rank ≤ 10)
    ∧ ((parseTableData results allTitleLinks sectionType).map Entry.rank).Nodup :=
  ⟨parseTableData_length_le results allTitleLinks sectionType,
   parseTableData_bounds results allTitleLinks sectionType,
   parseTableData_nodup results allTitleLinks sectionType⟩

/-- Claim C5 (amended): the entries produced by the sort-and-dedup pass are
in ascending rank order, and the full `parseTableData` output is that sorted
list followed by the gap-fill entries (themselves in strictly increasing
rank order, each taking the lowest still-unfilled rank); the gap-fill pass
appends at the end, so the combined sequence need not be globally sorted. -/
theorem parseTableData_sorted_structure (results : List Entry) (allTitleLinks : List String)
    (sectionType : String) :
    List.Sorted (fun a b : Int => a ≤ b) ((finalizePass results).map Entry.rank)
    ∧ ∃ extra, parseTableData results allTitleLinks sectionType = finalizePass results ++ extra
        ∧ List.Sorted (fun a b : Int => a < b) (extra.map Entry.rank) := by
  obtain ⟨extra, heq, hsort, hprop⟩ := parseTableData_split results allTitleLinks sectionType
  exact ⟨finalizePass_sorted results, extra, heq, hsort⟩

/-- Claim C5 counterexample: one stage entry at rank 2 plus one document
anchor makes the gap-fill pass append a rank-1 entry after the rank-2 entry,
so the returned sequence has rank list [2, 1], which is not ascending. -/
theorem parseTableData_unsorted_after_fill :
    (parseTableData [⟨2, "B", "TV Show", "", "Philippines", "Netflix"⟩] ["A"] "TV Shows").map Entry.rank
      = [2, 1]
    ∧ ¬ List.Sorted (fun a b : Int => a ≤ b)
        ((parseTableData [⟨2, "B", "TV Show", "", "Philippines", "Netflix"⟩] ["A"] "TV Shows").map Entry.rank) := by
  have h : (parseTableData [⟨2, "B", "TV Show", "", "Philippines", "Netflix"⟩] ["A"] "TV Shows").map Entry.rank
      = [2, 1] := by decide
  refine ⟨h, ?_⟩
  rw [h]
  intro hs
  have := (List.sorted_cons.mp hs).1 1 (List.mem_cons_self _ _)
  omega

/-- Claim C6 (amended): for request types "tv" and "movies" the result has
at most one entry per rank; for "both" the result is the concatenation of
the TV section and the Movies section, each of which is rank-unique on its
own (so a rank value can appear once per category, and the combined "both"
list can repeat a rank across the two sections); and deduplication is by
rank only - every valid rank present in a section's stage output survives to
the output regardless of its title, so duplicate titles at distinct ranks
are never collapsed. -/
theorem parseNetflixTop10_rank_unique_per_section (tvResults : List Entry)
    (tvLinks : List String) (movieResults : List Entry) (movieLinks : List String) :
    ((parseNetflixTop10 tvResults tvLinks movieResults movieLinks "tv").map Entry.rank).Nodup
    ∧ ((parseNetflixTop10 tvResults tvLinks movieResults movieLinks "movies").map Entry.rank).Nodup
    ∧ (parseNetflixTop10 tvResults tvLinks movieResults movieLinks "both"
          = parseTableData tvResults tvLinks "TV Shows" ++ parseTableData movieResults movieLinks "Movies"
        ∧ ((parseTableData tvResults tvLinks "TV Shows").map Entry.rank).Nodup
        ∧ ((parseTableData movieResults movieLinks "Movies").map Entry.rank).Nodup)
    ∧ ∀ (results : List Entry) (links : List String) (sectionType : String) (r : Int),
        r ∈ results.map Entry.rank → 1 ≤ r → r ≤ 10 →
        r ∈ (parseTableData results links sectionType).map Entry.rank := by
  refine ⟨?_, ?_, ⟨?_, parseTableData_nodup _ _ _, parseTableData_nodup _ _ _⟩, ?_⟩
  · rw [parseNetflixTop10, if_pos (Or.inl rfl), if_neg (by simp), List.append_nil]
    exact parseTableData_nodup _ _ _
  · rw [parseNetflixTop10, if_neg (by simp), if_pos (Or.inl rfl), List.nil_append]
    exact parseTableData_nodup _ _ _
  · rw [parseNetflixTop10, if_pos (Or.inr rfl), if_pos (Or.inr rfl)]
  · exact parseTableData_mem

/-- Claim C6 counterexample: with type "both" and one rank-1 entry in each
section, the returned set contains two entries of rank 1 - the "at most one
entry per rank in the final result set" invariant fails across sections. -/
theorem parseNetflixTop10_both_rank_clash :
    (parseNetflixTop10 [⟨1, "A", "TV Show", "", "Philippines", "Netflix"⟩] []
        [⟨1, "B", "Movie", "", "Philippines", "Netflix"⟩] [] "both").map Entry.rank = [1, 1]
    ∧ ¬ ((parseNetflixTop10 [⟨1, "A", "TV Show", "", "Philippines", "Netflix"⟩] []
        [⟨1, "B", "Movie", "", "Philippines", "Netflix"⟩] [] "both").map Entry.rank).Nodup := by
  have h : (parseNetflixTop10 [⟨1, "A", "TV Show", "", "Philippines", "Netflix"⟩] []
      [⟨1, "B", "Movie", "", "Philippines", "Netflix"⟩] [] "both").map Entry.rank = [1, 1] := by decide
  refine ⟨h, ?_⟩
  rw [h]
  intro hn
  exact (List.nodup_cons.mp hn).1 (List.mem_cons_self _ _)

/-- Claim C6 witness: two entries sharing rank 3 in the stage output still
yield rank 3 in the output (dedup inspects ranks, not titles). -/
theorem parseNetflixTop10_rank_unique_per_section_witness :
    (3 : Int) ∈ (parseTableData [⟨3, "A", "TV Show", "", "Philippines", "Netflix"⟩, ⟨3, "B", "TV Show", "", "Philippines", "Netflix"⟩] [] "TV Shows").map Entry.rank :=
  (parseNetflixTop10_rank_unique_per_section [] [] [] []).2.2.2
    [⟨3, "A", "TV Show", "", "Philippines", "Netflix"⟩, ⟨3, "B", "TV Show", "", "Philippines", "Netflix"⟩]
    [] "TV Shows" 3 (by decide) (by decide) (by decide)

theorem collapseGo_space_char : ∀ (l : List Char) (b : Bool),
    ∀ c ∈ collapseGo b l, isSpaceChar c = true → c = ' ' := by
  intro l
  induction l with
  | nil => intro b c hc; rcases b with _ | _ <;> simp [collapseGo] at hc
  | cons x rest ih =>
    intro b c hc hsp
    rcases b with _ | _
    · rw [collapseGo] at hc
      by_cases hx : isSpaceChar x = true
      · rw [if_pos hx] at hc
        rcases List.mem_cons.mp hc with h | h
        · exact h
        · exact ih true c h hsp
      · rw [if_neg hx] at hc
        rcases List.mem_cons.mp hc with h | h
        · exact absurd (h ▸ hsp) (by simpa using hx)
        · exact ih false c h hsp
    · rw [collapseGo] at hc
      by_cases hx : isSpaceChar x = true
      · rw [if_pos hx] at hc
        exact ih true c hc hsp
      · rw [if_neg hx] at hc
        rcases List.mem_cons.mp hc with h | h
        · exact absurd (h ▸ hsp) (by simpa using hx)
        · exact ih false c h hsp

theorem collapseGo_chain : ∀ (l : List Char) (b : Bool),
    List.Chain' (fun a c => ¬(a = ' ' ∧ c = ' ')) (collapseGo b l)
    ∧ (b = true → (collapseGo b l).head? ≠ some ' ') := by
  intro l
  induction l with
  | nil => intro b; rcases b with _ | _ <;> simp [collapseGo]
  | cons x rest ih =>
    intro b
    have hxs : isSpaceChar x = false → x ≠ ' ' := by
      intro hx hcontra
      rw [hcontra] at hx
      simp [isSpaceChar] at hx
    rcases b with _ | _
    · rw [collapseGo]
      by_cases hx : isSpaceChar x = true
      · rw [if_pos hx]
        obtain ⟨ihc, ihh⟩ := ih true
        refine ⟨List.chain'_cons'.mpr ⟨?_, ihc⟩, ?_⟩
        · intro y hy hcontra
          exact (ihh rfl) (by rw [hy, hcontra.2])
        · intro h
          simp at h
      · rw [if_neg hx]
        have hxe : x ≠ ' ' := hxs (by simpa using hx)
        obtain ⟨ihc, ihh⟩ := ih false
        refine ⟨List.chain'_cons'.mpr ⟨fun y hy hcontra => hxe hcontra.1, ihc⟩, ?_⟩
        intro h
        simp at h
    · rw [collapseGo]
      by_cases hx : isSpaceChar x = true
      · rw [if_pos hx]
        exact ⟨(ih true).1, fun _ => (ih true).2 rfl⟩
      · rw [if_neg hx]
        have hxe : x ≠ ' ' := hxs (by simpa using hx)
        obtain ⟨ihc, ihh⟩ := ih false
        refine ⟨List.chain'_cons'.mpr ⟨fun y hy hcontra => hxe hcontra.1, ihc⟩, ?_⟩
        intro _ hcontra
        exact hxe (by injection hcontra)

theorem dropWhile_head_not (p : Char → Bool) : ∀ (l : List Char) (c : Char),
    (l.dropWhile p).head? = some c → p c = false := by
  intro l
  induction l with
  | nil => intro c h; simp [List.dropWhile] at h
  | cons x rest ih =>
    intro c h
    rw [List.dropWhile] at h
    cases hpx : p x
    · rw [hpx] at h
      rw [List.head?_cons] at h
      injection h with h2
      rw [← h2]
      exact hpx
    · rw [hpx] at h
      exact ih c h

theorem trimChars_prefix_of_drop (l : List Char) :
    (trimChars l).IsPrefix (l.dropWhile (fun c => isSpaceChar c)) := by
  rw [trimChars]
  rw [← List.reverse_suffix]
  simp only [List.reverse_reverse]
  exact List.dropWhile_suffix _

theorem trimChars_within (l : List Char) : (trimChars l).IsInfix l :=
  (trimChars_prefix_of_drop l).isInfix.trans (List.dropWhile_suffix _).isInfix

theorem trimChars_head (l : List Char) (c : Char)
    (h : (trimChars l).head? = some c) : isSpaceChar c = false := by
  obtain ⟨s, hs⟩ := trimChars_prefix_of_drop l
  rcases htl : trimChars l with _ | ⟨x, xs⟩
  · rw [htl] at h
    simp at h
  · rw [htl] at h hs
    injection h with h2
    refine dropWhile_head_not (fun c => isSpaceChar c) l c ?_
    rw [← hs, ← h2]
    rfl

theorem trimChars_last (l : List Char) (c : Char)
    (h : (trimChars l).getLast? = some c) : isSpaceChar c = false := by
  rw [trimChars, List.getLast?_reverse] at h
  exact dropWhile_head_not (fun c => isSpaceChar c) _ c h

theorem collapse_trim_spec (l : List Char) :
    List.Chain' (fun a c => ¬(a = ' ' ∧ c = ' ')) (trimChars (collapseSpaces l))
    ∧ (∀ c ∈ trimChars (collapseSpaces l), isSpaceChar c = true → c = ' ')
    ∧ (∀ c, (trimChars (collapseSpaces l)).head? = some c → c ≠ ' ')
    ∧ (∀ c, (trimChars (collapseSpaces l)).getLast? = some c → c ≠ ' ') := by
  refine ⟨?_, ?_, ?_, ?_⟩
  · exact List.Chain'.infix (collapseGo_chain l false).1 (trimChars_within _)
  · intro c hc hsp
    exact collapseGo_space_char l false c ((trimChars_within _).subset hc) hsp
  · intro c hc hcontra
    have := trimChars_head _ c hc
    rw [hcontra] at this
    simp [isSpaceChar] at this
  · intro c hc hcontra
    have := trimChars_last _ c hc
    rw [hcontra] at this
    simp [isSpaceChar] at this

/-- Claim C9: `cleanTitleForSearch` normalizes "1. My Show (2023)" to
"My Show" (leading number-and-dot prefix and parenthetical removed),
removes bracketed content and `season <n>` ("Show Season 2 [HD]" becomes
"Show"), removes `series <n>` ("The Crown Series 3 (UK)" becomes
"The Crown"), `removeCountryIndicators` turns "My Show PH" into "My Show";
and for every input the result has all whitespace runs collapsed to single
spaces (no two adjacent spaces, every whitespace character is a plain
space) and is trimmed (no leading or trailing space). -/
theorem cleanTitleForSearch_spec :
    cleanTitleForSearch "1. My Show (2023)" = "My Show"
    ∧ removeCountryIndicators "My Show PH" = "My Show"
    ∧ cleanTitleForSearch "Show Season 2 [HD]" = "Show"
    ∧ cleanTitleForSearch "The Crown Series 3 (UK)" = "The Crown"
    ∧ ∀ s : String,
        List.Chain' (fun a c => ¬(a = ' ' ∧ c = ' ')) (cleanTitleForSearch s).toList
        ∧ (∀ c ∈ (cleanTitleForSearch s).toList, isSpaceChar c = true → c = ' ')
        ∧ (∀ c, (cleanTitleForSearch s).toList.head? = some c → c ≠ ' ')
        ∧ (∀ c, (cleanTitleForSearch s).toList.getLast? = some c → c ≠ ' ') := by
  refine ⟨by decide, by decide, by decide, by decide, ?_⟩
  intro s
  exact collapse_trim_spec _

/-- Claim C1 witness: a concrete one-entry stage output satisfies the length
bound and the rank bounds at its member entry. -/
theorem parseTableData_invariants_witness :
    (parseTableData [⟨4, "T", "TV Show", "", "Philippines", "Netflix"⟩] [] "TV Shows").length ≤ 10
    ∧ (1 ≤ (⟨4, "T", "TV Show", "", "Philippines", "Netflix"⟩ : Entry).rank
        ∧ (⟨4, "T", "TV Show", "", "Philippines", "Netflix"⟩ : Entry).rank ≤ 10) :=
  ⟨(parseTableData_invariants [⟨4, "T", "TV Show", "", "Philippines", "Netflix"⟩] [] "TV Shows").1,
   (parseTableData_invariants [⟨4, "T", "TV Show", "", "Philippines", "Netflix"⟩] [] "TV Shows").2.1
     ⟨4, "T", "TV Show", "", "Philippines", "Netflix"⟩ (by decide)⟩

/-- Claim C5 witness: the sorted-prefix decomposition at a concrete input. -/
theorem parseTableData_sorted_structure_witness :
    List.Sorted (fun a b : Int => a ≤ b)
      ((finalizePass [⟨5, "T", "TV Show", "", "Philippines", "Netflix"⟩]).map Entry.rank)
    ∧ ∃ extra, parseTableData [⟨5, "T", "TV Show", "", "Philippines", "Netflix"⟩] [] "TV Shows"
          = finalizePass [⟨5, "T", "TV Show", "", "Philippines", "Netflix"⟩] ++ extra
        ∧ List.Sorted (fun a b : Int => a < b) (extra.map Entry.rank) :=
  parseTableData_sorted_structure [⟨5, "T", "TV Show", "", "Philippines", "Netflix"⟩] [] "TV Shows"

/-- Claim C8 witness: an always-rejecting collaborator makes the overall
match absent. -/
theorem searchTMDB_absent_iff_no_candidates_witness :
    (searchTMDB 2025 (fun _ _ _ => Except.error ()) "A" "tv" "PH").1 = none :=
  (searchTMDB_absent_iff_no_candidates 2025 (fun _ _ _ => Except.error ()) "A" "tv" "PH").1.mpr
    (fun s hs => Or.inl rfl)

/-- Claim C9 witness: the normalized form of "A  B" starts with a non-space
character. -/
theorem cleanTitleForSearch_spec_witness :
    (cleanTitleForSearch "A  B").toList.head? = some 'A' ∧ ('A' : Char) ≠ ' ' :=
  ⟨by decide, (cleanTitleForSearch_spec.2.2.2.2 "A  B").2.2.1 'A' (by decide)⟩
